import Mathlib

/-!
Verification of the bootcom serial boot utility.

The definitions below are a shallow embedding of the Rust sources:
machine bytes become Nat, the serial port becomes an explicit trace of
written bytes plus an availability oracle, the two state machines become
step functions over inductive state types, and the unbounded loops are
made total with an explicit fuel argument.
-/

namespace Bootcom

/-- A machine byte, kept as a Nat (values below 256 in all traces). -/
abbrev Byte := Nat

/-- Settings (src/settings.rs). The serial-line parameters are opaque to the
state machines, so their serialport enum types are carried as plain Nat
codes; the claims only touch path and kernel_image. -/
structure Settings where
  path : Option String
  baud_rate : Nat
  data_bits : Nat
  flow_control : Nat
  parity : Nat
  stop_bits : Nat
  kernel_image : Option String
  deriving Repr, DecidableEq

-- ============================================================================
-- Terminal mode: trigger detection (src/boot_protocol/states.rs, the body of
-- TerminalModeState::run for one successfully read chunk)
-- ============================================================================

/-- One chunk step of TerminalModeState::run: the command is collected by
walking the chunk from its end while the bytes equal 3; when the collected
run is exactly [3, 3, 3] the three trailing bytes are stripped from the data
forwarded to stdout and the send_kernel flag is set. Returns the forwarded
bytes and the flag. -/
def terminal_mode_scan (chunk : List Byte) : List Byte × Bool :=
  let command := chunk.reverse.takeWhile (fun b => b == 3)
  if command = [3, 3, 3] then (chunk.take (chunk.length - 3), true)
  else (chunk, false)

/-- Spec wording for the trigger: the chunk ends in a run of exactly three
consecutive 0x03 bytes (the byte right before those three, when there is
one, is not 0x03). -/
def ends_in_exact_triple (chunk : List Byte) : Prop :=
  ∃ pre, chunk = pre ++ [3, 3, 3] ∧ pre.getLast? ≠ some 3

lemma takeWhile3_nil_iff (t : List Nat) :
    t.takeWhile (fun b => b == 3) = [] ↔ t.head? ≠ some 3 := by
  cases t with
  | nil => simp
  | cons a t =>
    by_cases h : a = 3
    · subst h; simp [List.takeWhile_cons]
    · simp [List.takeWhile_cons, h]

lemma takeWhile3_cons_iff (l r : List Nat) :
    l.takeWhile (fun b => b == 3) = 3 :: r ↔
      ∃ t, l = 3 :: t ∧ t.takeWhile (fun b => b == 3) = r := by
  cases l with
  | nil => simp
  | cons a t =>
    by_cases h : a = 3
    · subst h
      simp [List.takeWhile_cons]
    · simp [List.takeWhile_cons, h]

lemma takeWhile3_eq_triple_iff (l : List Nat) :
    l.takeWhile (fun b => b == 3) = [3, 3, 3] ↔
      ∃ t, l = 3 :: 3 :: 3 :: t ∧ t.head? ≠ some 3 := by
  constructor
  · intro h
    rw [takeWhile3_cons_iff] at h
    obtain ⟨t1, rfl, h⟩ := h
    rw [takeWhile3_cons_iff] at h
    obtain ⟨t2, rfl, h⟩ := h
    rw [takeWhile3_cons_iff] at h
    obtain ⟨t3, rfl, h⟩ := h
    rw [takeWhile3_nil_iff] at h
    exact ⟨t3, rfl, h⟩
  · rintro ⟨t, rfl, h⟩
    rw [takeWhile3_cons_iff]
    refine ⟨_, rfl, ?_⟩
    rw [takeWhile3_cons_iff]
    refine ⟨_, rfl, ?_⟩
    rw [takeWhile3_cons_iff]
    refine ⟨_, rfl, ?_⟩
    rw [takeWhile3_nil_iff]
    exact h

lemma trailing_triple_iff (chunk : List Byte) :
    chunk.reverse.takeWhile (fun b => b == 3) = [3, 3, 3] ↔
      ends_in_exact_triple chunk := by
  rw [takeWhile3_eq_triple_iff]
  constructor
  · rintro ⟨t, ht, h⟩
    refine ⟨t.reverse, ?_, ?_⟩
    · have h2 := congrArg List.reverse ht
      simpa using h2
    · rw [List.getLast?_reverse]
      exact h
  · rintro ⟨pre, rfl, h⟩
    refine ⟨pre.reverse, ?_, ?_⟩
    · simp
    · rw [List.head?_reverse]
      exact h

/-- C2. In terminal mode, for every read chunk, the send flag is set iff the
chunk ends in a run of exactly three 0x03 bytes; when set, exactly those
three trailing bytes are excluded from the forwarded output; when not set the
chunk is forwarded whole (so three 0x03 bytes not at the very end, or fewer
than three trailing ones, do not trigger the switch). -/
theorem terminal_trigger_iff_trailing_triple (chunk : List Byte) :
    ((terminal_mode_scan chunk).2 = true ↔ ends_in_exact_triple chunk) ∧
    (∀ pre, chunk = pre ++ [3, 3, 3] → pre.getLast? ≠ some 3 →
      (terminal_mode_scan chunk).1 = pre) ∧
    ((terminal_mode_scan chunk).2 = false → (terminal_mode_scan chunk).1 = chunk) := by
  have key := trailing_triple_iff chunk
  by_cases hc : chunk.reverse.takeWhile (fun b => b == 3) = [3, 3, 3]
  · refine ⟨?_, ?_, ?_⟩
    · simp only [terminal_mode_scan, if_pos hc]
      exact ⟨fun _ => key.mp hc, fun _ => trivial⟩
    · intro pre hpre _
      simp only [terminal_mode_scan, if_pos hc]
      subst hpre
      have hlen : (pre ++ [3, 3, 3]).length - 3 = pre.length := by
        simp
      rw [hlen]
      exact List.take_left pre [3, 3, 3]
    · intro hfalse
      simp [terminal_mode_scan, if_pos hc] at hfalse
  · refine ⟨?_, ?_, ?_⟩
    · simp only [terminal_mode_scan, if_neg hc]
      constructor
      · intro h; exact absurd h (by simp)
      · intro h; exact absurd (key.mpr h) hc
    · intro pre hpre hlast
      exact absurd (key.mpr ⟨pre, hpre, hlast⟩) hc
    · intro _
      simp only [terminal_mode_scan, if_neg hc]

/-- Witness for C2 on the chunk [0x41, 0x42, 3, 3, 3]: the trigger fires and
the forwarded bytes are [0x41, 0x42]. -/
theorem terminal_trigger_iff_trailing_triple_witness :
    (terminal_mode_scan [0x41, 0x42, 3, 3, 3]).2 = true ∧
    (terminal_mode_scan [0x41, 0x42, 3, 3, 3]).1 = [0x41, 0x42] :=
  ⟨((terminal_trigger_iff_trailing_triple [0x41, 0x42, 3, 3, 3]).1).mpr
      ⟨[0x41, 0x42], rfl, by decide⟩,
    (terminal_trigger_iff_trailing_triple [0x41, 0x42, 3, 3, 3]).2.1
      [0x41, 0x42] rfl (by decide)⟩

-- ============================================================================
-- Kernel transfer (src/utils/kernel.rs)
-- ============================================================================

/-- A simulated serial port for the kernel transfer. avail i is the value
bytes_to_read() reports at the i-th poll of the OK-wait loop; reply is the
2-byte acknowledgment read back when enough bytes are available; written is
the trace of every byte written to the port, in order. -/
structure SimPort where
  avail : Nat → Nat
  reply : List Byte
  written : List Byte

/-- The little-endian byte encoding written by u32::to_le_bytes on the kernel
size (after the size was checked to fit in 32 bits). -/
def u32_to_le_bytes (n : Nat) : List Byte :=
  [n % 256, n / 256 % 256, n / 65536 % 256, n / 16777216 % 256]

/-- The try bound of the OK-wait loop in write_kernel_size: retry with
delay::Fixed::from_millis(1000).take(9), i.e. one initial try plus 9 retries
one second apart. -/
def okWaitTries : Nat := 10

/-- The poll index (within tries polls starting at k) of the first poll that
reports at least 2 bytes available, if any. -/
def firstPollWithTwo (avail : Nat → Nat) : Nat → Nat → Option Nat
  | 0, _ => none
  | t + 1, k => if 2 ≤ avail k then some k else firstPollWithTwo avail t (k + 1)

/-- write_kernel_size: clear the input buffer, write the 4 little-endian size
bytes, then poll bytes_to_read up to okWaitTries times; as soon as a poll
reports at least 2 bytes, read exactly 2 bytes and succeed — the value of
those 2 bytes is returned but not inspected by the code. When every try
reported fewer than 2 bytes, the attempt fails. -/
def write_kernel_size (port : SimPort) (size : Nat) : SimPort × Option (List Byte) :=
  let port1 : SimPort := { port with written := port.written ++ u32_to_le_bytes size }
  match firstPollWithTwo port.avail okWaitTries 0 with
  | some _ => (port1, some port.reply)
  | none => (port1, none)

/-- write_kernel_image: stream the file in chunks of c + 1 bytes (1024 in the
source, c = 1023): read up to c + 1 bytes from the file, write that chunk to
the port, and repeat until all size bytes went out. A write timeout retries
the same chunk and leaves no trace; the result is the byte sequence written
to the port. -/
def write_kernel_image (c : Nat) : List Byte → List Byte
  | [] => []
  | b :: bs => (b :: bs.take c) ++ write_kernel_image c (bs.drop c)
termination_by l => l.length
decreasing_by simp [List.length_drop]; omega

/-- The kernel image source as resolved at the top of send_kernel: either the
interactive selection was cancelled (settings.kernel_image unset, no default
kernel8.img, and the user picked the cancel entry), or a readable file with
the given bytes. -/
inductive ImageSource
  | cancelled
  | file (bytes : List Byte)

/-- send_kernel: a cancelled selection returns Ok(0) at once; an image larger
than 0xFFFFFFFF is rejected as an error; otherwise write_kernel_size sends
the header and waits for the 2-byte acknowledgment, and on its success
write_kernel_image streams the bytes. Returns the port and whether this
attempt succeeded. c + 1 is the streaming chunk size. -/
def send_kernel (c : Nat) (port : SimPort) (src : ImageSource) : SimPort × Bool :=
  match src with
  | .cancelled => (port, true)
  | .file bytes =>
    if 0xffffffff < bytes.length then (port, false)
    else
      match write_kernel_size port bytes.length with
      | (port1, some _reply) =>
        ({ port1 with written := port1.written ++ write_kernel_image c bytes }, true)
      | (port1, none) => (port1, false)

theorem write_kernel_image_eq (c : Nat) (l : List Byte) :
    write_kernel_image c l = l := by
  match l with
  | [] => rw [write_kernel_image]
  | b :: bs =>
    rw [write_kernel_image, write_kernel_image_eq c (bs.drop c)]
    rw [List.cons_append, List.cons.injEq]
    exact ⟨rfl, List.take_append_drop c bs⟩
termination_by l.length
decreasing_by simp [List.length_drop]; omega

lemma firstPollWithTwo_isSome (avail : Nat → Nat) :
    ∀ t k, (∃ i, i < t ∧ 2 ≤ avail (k + i)) →
      ∃ j, firstPollWithTwo avail t k = some j := by
  intro t
  induction t with
  | zero =>
    rintro k ⟨i, hi, _⟩
    omega
  | succ t ih =>
    rintro k ⟨i, hi, hav⟩
    rw [firstPollWithTwo]
    by_cases h : 2 ≤ avail k
    · exact ⟨k, if_pos h⟩
    · rw [if_neg h]
      apply ih (k + 1)
      cases i with
      | zero => exact absurd hav (by simpa using h)
      | succ i =>
        refine ⟨i, by omega, ?_⟩
        have : k + 1 + i = k + (i + 1) := by omega
        rw [this]
        exact hav

lemma firstPollWithTwo_isNone (avail : Nat → Nat) :
    ∀ t k, (∀ i, i < t → avail (k + i) < 2) →
      firstPollWithTwo avail t k = none := by
  intro t
  induction t with
  | zero => intro k _; rfl
  | succ t ih =>
    intro k h
    rw [firstPollWithTwo]
    have h0 : avail k < 2 := by
      have := h 0 (by omega)
      simpa using this
    rw [if_neg (by omega)]
    apply ih (k + 1)
    intro i hi
    have : k + 1 + i = k + (i + 1) := by omega
    rw [this]
    exact h (i + 1) (by omega)

/-- C1. For every kernel image of length at most 0xFFFFFFFF, every streaming
chunk size and every port that reports 2 acknowledgment bytes available
within the okWaitTries polling bound, the transfer succeeds and the bytes
written to the port are exactly the 4-byte little-endian length followed by
the image bytes in order. -/
theorem kernel_transfer_writes_header_then_image
    (c : Nat) (port : SimPort) (bytes : List Byte)
    (hlen : bytes.length ≤ 0xffffffff)
    (hack : ∃ i, i < okWaitTries ∧ 2 ≤ port.avail i)
    (hw : port.written = []) :
    (send_kernel c port (.file bytes)).2 = true ∧
    (send_kernel c port (.file bytes)).1.written =
      u32_to_le_bytes bytes.length ++ bytes := by
  have hsome : ∃ j, firstPollWithTwo port.avail okWaitTries 0 = some j := by
    apply firstPollWithTwo_isSome
    obtain ⟨i, hi, hav⟩ := hack
    exact ⟨i, hi, by simpa using hav⟩
  obtain ⟨j, hj⟩ := hsome
  have hnot : ¬(0xffffffff < bytes.length) := by omega
  simp only [send_kernel, write_kernel_size, hj, if_neg hnot]
  refine ⟨trivial, ?_⟩
  simp [hw, write_kernel_image_eq]

/-- Witness for C1: a 3-byte image over a port that acknowledges at the first
poll; the written trace is the little-endian header followed by the image. -/
theorem kernel_transfer_writes_header_then_image_witness :
    (send_kernel 0 ⟨fun _ => 2, [0x4F, 0x4B], []⟩ (.file [1, 2, 3])).2 = true ∧
    (send_kernel 0 ⟨fun _ => 2, [0x4F, 0x4B], []⟩ (.file [1, 2, 3])).1.written =
      u32_to_le_bytes 3 ++ [1, 2, 3] :=
  kernel_transfer_writes_header_then_image 0 ⟨fun _ => 2, [0x4F, 0x4B], []⟩
    [1, 2, 3] (by decide) ⟨0, by decide, by decide⟩ rfl

/-- C4. For every port that never reports 2 acknowledgment bytes available
during the okWaitTries polls, the transfer attempt fails and the written
trace holds only the 4 length bytes — no image bytes at all. -/
theorem kernel_transfer_no_ack_fails
    (c : Nat) (port : SimPort) (bytes : List Byte)
    (hlen : bytes.length ≤ 0xffffffff)
    (hnoack : ∀ i, i < okWaitTries → port.avail i < 2)
    (hw : port.written = []) :
    (send_kernel c port (.file bytes)).2 = false ∧
    (send_kernel c port (.file bytes)).1.written = u32_to_le_bytes bytes.length := by
  have hnone : firstPollWithTwo port.avail okWaitTries 0 = none := by
    apply firstPollWithTwo_isNone
    intro i hi
    simpa using hnoack i hi
  have hnot : ¬(0xffffffff < bytes.length) := by omega
  simp only [send_kernel, write_kernel_size, hnone, if_neg hnot]
  exact ⟨trivial, by simp [hw]⟩

/-- Witness for C4: a port with an always-empty input buffer; the attempt on a
1-byte image fails with only the header written. -/
theorem kernel_transfer_no_ack_fails_witness :
    (send_kernel 1023 ⟨fun _ => 0, [], []⟩ (.file [0xAA])).2 = false ∧
    (send_kernel 1023 ⟨fun _ => 0, [], []⟩ (.file [0xAA])).1.written =
      u32_to_le_bytes 1 :=
  kernel_transfer_no_ack_fails 1023 ⟨fun _ => 0, [], []⟩ [0xAA] (by decide)
    (fun i _ => by show (0 : Nat) < 2; omega) rfl

/-- C3 (code bug). write_kernel_size reads the 2 acknowledgment bytes but
never compares them with the ASCII bytes O, K: a port that replies 0x4E 0x4F
is accepted and the image bytes are sent anyway, contradicting the claim and
the code's own comment and error message. -/
theorem write_kernel_size_ignores_reply_value :
    (write_kernel_size ⟨fun _ => 2, [0x4E, 0x4F], []⟩ 1).2 = some [0x4E, 0x4F] ∧
    [0x4E, 0x4F] ≠ [0x4F, 0x4B] ∧
    (send_kernel 1023 ⟨fun _ => 2, [0x4E, 0x4F], []⟩ (.file [0xAA])).2 = true ∧
    (send_kernel 1023 ⟨fun _ => 2, [0x4E, 0x4F], []⟩ (.file [0xAA])).1.written =
      [1, 0, 0, 0, 0xAA] := by
  refine ⟨rfl, by decide, rfl, ?_⟩
  simp [send_kernel, write_kernel_size, firstPollWithTwo, okWaitTries,
    u32_to_le_bytes, write_kernel_image_eq]

-- ============================================================================
-- Port waiting (src/utils/ports.rs)
-- ============================================================================

/-- Rust str::starts_with as used on enumerated identifiers. -/
def starts_with (s pre : String) : Bool :=
  pre.data.isPrefixOf s.data

/-- check_requested_port: true when some detected identifier starts with the
requested path. -/
def check_requested_port (ports : List String) (path : String) : Bool :=
  ports.any fun detected_port => starts_with detected_port path

/-- Result of the waiting loop in wait_for_port. -/
inductive WaitOutcome
  | ready
  | cancelled
  deriving Repr, DecidableEq

/-- The poller loop of wait_for_port: at iteration k enumerate the attached
identifiers (enums k); when one matches the requested path, signal done and
report ready; otherwise block on the cancel channel for one poll period
(cancel k tells whether the cancel signal arrived during iteration k) and
either report cancelled or poll again. The loop is unbounded; fuel makes it
total, none meaning the loop is still running after fuel iterations. -/
def wait_for_port_loop (enums : Nat → List String) (cancel : Nat → Bool)
    (path : String) : Nat → Nat → Option WaitOutcome
  | 0, _ => none
  | f + 1, k =>
    if check_requested_port (enums k) path then some .ready
    else if cancel k then some .cancelled
    else wait_for_port_loop enums cancel path f (k + 1)

lemma isPrefixOf_iff_append (l1 l2 : List Char) :
    l1.isPrefixOf l2 = true ↔ ∃ t, l2 = l1 ++ t := by
  induction l1 generalizing l2 with
  | nil => simp
  | cons a l1 ih =>
    cases l2 with
    | nil => simp [List.isPrefixOf]
    | cons b l2 =>
      simp only [List.isPrefixOf, Bool.and_eq_true, beq_iff_eq, ih, List.cons_append,
        List.cons.injEq]
      constructor
      · rintro ⟨rfl, t, rfl⟩
        exact ⟨t, rfl, rfl⟩
      · rintro ⟨t, rfl, rfl⟩
        exact ⟨rfl, t, rfl⟩

lemma wait_loop_ready_has_match (enums : Nat → List String) (cancel : Nat → Bool)
    (path : String) :
    ∀ f k, wait_for_port_loop enums cancel path f k = some .ready →
      ∃ i, check_requested_port (enums i) path = true := by
  intro f
  induction f with
  | zero => intro k h; simp [wait_for_port_loop] at h
  | succ f ih =>
    intro k h
    rw [wait_for_port_loop] at h
    by_cases hm : check_requested_port (enums k) path
    · exact ⟨k, hm⟩
    · rw [if_neg hm] at h
      by_cases hcan : cancel k
      · rw [if_pos hcan] at h
        simp at h
      · rw [if_neg hcan] at h
        exact ih (k + 1) h

lemma wait_loop_reaches_match (enums : Nat → List String) (cancel : Nat → Bool)
    (path : String) (hnc : ∀ k, cancel k = false) :
    ∀ i k, check_requested_port (enums (k + i)) path = true →
      wait_for_port_loop enums cancel path (i + 1) k = some .ready := by
  intro i
  induction i with
  | zero =>
    intro k h
    rw [wait_for_port_loop, if_pos (by simpa using h)]
  | succ i ih =>
    intro k h
    rw [wait_for_port_loop]
    by_cases hm : check_requested_port (enums k) path
    · rw [if_pos hm]
    · rw [if_neg hm, hnc k, if_neg (by simp)]
      apply ih (k + 1)
      have : k + 1 + i = k + (i + 1) := by omega
      rw [this]
      exact h

/-- C6. check_requested_port is true exactly when some enumerated identifier
has the expected path as a string prefix; the waiting loop reports ready only
when some enumeration result contained such an identifier, and (absent
cancellation) it reports ready exactly when some enumeration result does. -/
theorem wait_for_port_ready_iff_match (enums : Nat → List String)
    (cancel : Nat → Bool) (path : String) :
    (∀ ports, check_requested_port ports path = true ↔
      ∃ p, p ∈ ports ∧ ∃ t, p.data = path.data ++ t) ∧
    (∀ f, wait_for_port_loop enums cancel path f 0 = some .ready →
      ∃ i, check_requested_port (enums i) path = true) ∧
    ((∀ k, cancel k = false) →
      ((∃ f, wait_for_port_loop enums cancel path f 0 = some .ready) ↔
        ∃ i, check_requested_port (enums i) path = true)) := by
  refine ⟨?_, ?_, ?_⟩
  · intro ports
    simp only [check_requested_port, List.any_eq_true, starts_with]
    constructor
    · rintro ⟨p, hp, hpre⟩
      exact ⟨p, hp, (isPrefixOf_iff_append path.data p.data).mp hpre⟩
    · rintro ⟨p, hp, t, ht⟩
      exact ⟨p, hp, (isPrefixOf_iff_append path.data p.data).mpr ⟨t, ht⟩⟩
  · intro f
    exact wait_loop_ready_has_match enums cancel path f 0
  · intro hnc
    constructor
    · rintro ⟨f, hf⟩
      exact wait_loop_ready_has_match enums cancel path f 0 hf
    · rintro ⟨i, hi⟩
      exact ⟨i + 1, wait_loop_reaches_match enums cancel path hnc i 0 (by simpa using hi)⟩

/-- A concrete enumeration history for the C6 witness: nothing at the first
poll, then a decorated identifier. -/
def enumsW : Nat → List String :=
  fun i => if i = 1 then ["/dev/ttyUSB0: (FTDI / USB Serial)"] else []

/-- Witness for C6: with no cancellation, the wait over enumsW reports ready,
exactly because the second enumeration contains a match. -/
theorem wait_for_port_ready_iff_match_witness :
    (∃ f, wait_for_port_loop enumsW (fun _ => false) "/dev/ttyUSB0" f 0 =
      some .ready) ↔
    ∃ i, check_requested_port (enumsW i) "/dev/ttyUSB0" = true :=
  (wait_for_port_ready_iff_match enumsW (fun _ => false) "/dev/ttyUSB0").2.2
    (fun _ => rfl)

-- ============================================================================
-- Boot protocol state machine (src/boot_protocol)
-- ============================================================================

/-- Events of the boot protocol state machine (src/boot_protocol/events.rs).
The moved port object is represented by an identity token. -/
inductive ProtoEvent
  | SwitchToTerminalMode (port : Nat)
  | SwitchToKernelSendMode (port : Nat)
  | DoneEv (with_errors : Bool)
  | ExitEv (with_error : Bool)
  deriving Repr, DecidableEq

/-- States of the boot protocol state machine. -/
inductive ProtoState
  | Init
  | TerminalMode (port : Nat)
  | KernelSendMode (port : Nat)
  | Done (with_error : Bool) (should_exit : Bool)
  deriving Repr, DecidableEq

/-- External outcomes a protocol step can observe: whether
open_and_setup_port succeeded within its bounded retries (and which port it
yielded), and how the terminal-mode loop exited (trigger seen, or an I/O
error). -/
structure ProtoEnv where
  open_ok : Bool
  new_port : Nat
  term_trigger : Bool
  term_error : Bool

/-- One transition of the protocol machine (ProtocolStates::step composed
with each state's run): Init opens the port (bounded retries) and moves to
TerminalMode, or to Done with error on exhaustion; TerminalMode moves to
KernelSendMode with the same port on the trigger, else to Done carrying the
error flag; KernelSendMode, when its retry loop terminates, always moves back
to TerminalMode with the same port; Done fires Exit and re-enters itself with
should_exit set. Every event carries the settings unchanged. -/
def protoStep (env : ProtoEnv) (settings : Settings) :
    ProtoState → Settings × ProtoState
  | .Init =>
    (settings, if env.open_ok then .TerminalMode env.new_port else .Done true false)
  | .TerminalMode p =>
    (settings, if env.term_trigger then .KernelSendMode p else .Done env.term_error false)
  | .KernelSendMode p => (settings, .TerminalMode p)
  | .Done e _ => (settings, .Done e true)

/-- Iterated protocol transitions under a per-step environment. -/
def protoRun (envs : Nat → ProtoEnv) (start : Settings × ProtoState) :
    Nat → Settings × ProtoState
  | 0 => start
  | n + 1 =>
    protoStep (envs n) (protoRun envs start n).1 (protoRun envs start n).2

/-- The unbounded send_kernel retry loop inside KernelSendModeState::run:
attempts k tells whether the k-th send_kernel attempt succeeds; the loop
returns the index of the first success, fuel making it total. -/
def kernel_send_attempts (attempts : Nat → Bool) : Nat → Nat → Option Nat
  | 0, _ => none
  | f + 1, k => if attempts k then some k else kernel_send_attempts attempts f (k + 1)

/-- KernelSendModeState::run: retry send_kernel until an attempt succeeds,
then fire SwitchToTerminalMode with the same port; none when the loop is
still retrying after fuel attempts. -/
def kernel_send_mode_run (attempts : Nat → Bool) (port : Nat) (fuel : Nat) :
    Option ProtoEvent :=
  match kernel_send_attempts attempts fuel 0 with
  | some _ => some (.SwitchToTerminalMode port)
  | none => none

lemma kernel_send_attempts_isSome (attempts : Nat → Bool) :
    ∀ f k, (∃ j, j < f ∧ attempts (k + j) = true) →
      ∃ i, kernel_send_attempts attempts f k = some i := by
  intro f
  induction f with
  | zero => rintro k ⟨j, hj, _⟩; omega
  | succ f ih =>
    rintro k ⟨j, hj, hatt⟩
    rw [kernel_send_attempts]
    by_cases h : attempts k
    · exact ⟨k, if_pos h⟩
    · rw [if_neg h]
      apply ih (k + 1)
      cases j with
      | zero => exact absurd hatt (by simpa using h)
      | succ j =>
        refine ⟨j, by omega, ?_⟩
        have : k + 1 + j = k + (j + 1) := by omega
        rw [this]
        exact hatt

lemma kernel_send_attempts_success (attempts : Nat → Bool) :
    ∀ f k i, kernel_send_attempts attempts f k = some i → attempts i = true := by
  intro f
  induction f with
  | zero => intro k i h; simp [kernel_send_attempts] at h
  | succ f ih =>
    intro k i h
    rw [kernel_send_attempts] at h
    by_cases hk : attempts k
    · rw [if_pos hk] at h
      cases h
      exact hk
    · rw [if_neg hk] at h
      exact ih (k + 1) i h

/-- C7. KernelSendMode retries the kernel transfer without bound: whatever
event its run produces is SwitchToTerminalMode carrying the same port, it
never produces Done, and the run terminates exactly when some attempt in the
sequence succeeds. -/
theorem kernel_send_mode_retries_until_success (attempts : Nat → Bool) (port : Nat) :
    (∀ fuel ev, kernel_send_mode_run attempts port fuel = some ev →
      ev = ProtoEvent.SwitchToTerminalMode port) ∧
    (∀ fuel e, kernel_send_mode_run attempts port fuel ≠ some (ProtoEvent.DoneEv e)) ∧
    ((∃ fuel, (kernel_send_mode_run attempts port fuel).isSome) ↔
      ∃ k, attempts k = true) := by
  have hform : ∀ fuel ev, kernel_send_mode_run attempts port fuel = some ev →
      ev = ProtoEvent.SwitchToTerminalMode port := by
    intro fuel ev h
    rw [kernel_send_mode_run] at h
    cases hk : kernel_send_attempts attempts fuel 0 with
    | none => rw [hk] at h; simp at h
    | some i => rw [hk] at h; simpa using h.symm
  refine ⟨hform, ?_, ?_, ?_⟩
  · intro fuel e h
    have := hform fuel (ProtoEvent.DoneEv e) h
    simp at this
  · rintro ⟨fuel, hsome⟩
    rw [kernel_send_mode_run] at hsome
    cases hk : kernel_send_attempts attempts fuel 0 with
    | none => rw [hk] at hsome; simp at hsome
    | some i => exact ⟨i, kernel_send_attempts_success attempts fuel 0 i hk⟩
  · rintro ⟨k, hk⟩
    refine ⟨k + 1, ?_⟩
    obtain ⟨i, hi⟩ := kernel_send_attempts_isSome attempts (k + 1) 0
      ⟨k, by omega, by simpa using hk⟩
    rw [kernel_send_mode_run, hi]
    rfl

/-- A concrete attempt history for the C7 witness: the third attempt is the
first to succeed. -/
def attemptsW : Nat → Bool :=
  fun k => k == 2

/-- Witness for C7: over attemptsW the kernel-send loop terminates, by the
equivalence with the existence of a successful attempt. -/
theorem kernel_send_mode_retries_until_success_witness :
    ∃ fuel, (kernel_send_mode_run attemptsW 7 fuel).isSome :=
  (kernel_send_mode_retries_until_success attemptsW 7).2.2.mpr ⟨2, rfl⟩

-- ============================================================================
-- Device manager state machine (src/boot_server)
-- ============================================================================

/-- States of the device manager state machine (src/boot_server/states.rs). -/
inductive DMState
  | Init
  | WaitForPort
  | SelectPort
  | Service
  | Done (with_error : Bool) (should_exit : Bool)
  deriving Repr, DecidableEq

/-- External outcomes a device-manager step can observe: whether
wait_for_port was cancelled, which path select_port returned (none when the
user declined), and the exit status of the inner boot protocol run. -/
structure DMEnv where
  wait_cancelled : Bool
  selected : Option String
  proto_status : Int

/-- One transition of the device manager (DeviceManagerStates::step composed
with each state's run): Init branches on settings.path; WaitForPort reports
cancellation or readiness; SelectPort updates the path on a selection and
loops otherwise; Service runs the boot protocol machine and branches on its
status (0 is clean completion, anything else a port failure); Done fires Exit
and re-enters itself with should_exit set. -/
def dmStep (env : DMEnv) (settings : Settings) : DMState → Settings × DMState
  | .Init =>
    (settings, if settings.path.isSome then .WaitForPort else .SelectPort)
  | .WaitForPort =>
    (settings, if env.wait_cancelled then .SelectPort else .Service)
  | .SelectPort =>
    match env.selected with
    | some p => ({ settings with path := some p }, .Service)
    | none => (settings, .SelectPort)
  | .Service =>
    if env.proto_status = 0 then (settings, .Done false false)
    else (settings, .WaitForPort)
  | .Done e _ => (settings, .Done e true)

/-- Iterated device-manager transitions under a per-step environment. -/
def dmRun (envs : Nat → DMEnv) (start : Settings × DMState) :
    Nat → Settings × DMState
  | 0 => start
  | n + 1 => dmStep (envs n) (dmRun envs start n).1 (dmRun envs start n).2

/-- C5. Out of Service the device manager moves to Done with no error exactly
when the inner protocol run returns status 0, and to WaitForPort exactly when
it returns a nonzero status; the settings are carried unchanged, and no other
transition out of Service exists. -/
theorem service_completion_transitions (env : DMEnv) (settings : Settings) :
    (dmStep env settings .Service).1 = settings ∧
    ((dmStep env settings .Service).2 = DMState.Done false false ↔
      env.proto_status = 0) ∧
    ((dmStep env settings .Service).2 = DMState.WaitForPort ↔
      env.proto_status ≠ 0) := by
  by_cases h : env.proto_status = 0 <;> simp [dmStep, h]

lemma dmStep_inv (env : DMEnv) (st : Settings) (x : DMState)
    (hx : (x = DMState.WaitForPort ∨ x = DMState.Service) → st.path.isSome = true) :
    ((dmStep env st x).2 = DMState.WaitForPort ∨
     (dmStep env st x).2 = DMState.Service) →
      ((dmStep env st x).1).path.isSome = true := by
  cases x with
  | Init =>
    intro h
    by_cases hp : st.path.isSome = true
    · simpa [dmStep] using hp
    · simp [dmStep, hp] at h
  | WaitForPort =>
    intro h
    have hprev := hx (Or.inl rfl)
    simpa [dmStep] using hprev
  | SelectPort =>
    intro h
    cases hs : env.selected with
    | some p => simp [dmStep, hs]
    | none => simp [dmStep, hs] at h
  | Service =>
    intro h
    have hprev := hx (Or.inr rfl)
    by_cases h0 : env.proto_status = 0 <;> simpa [dmStep, h0] using hprev
  | Done e se =>
    intro h
    simp [dmStep] at h

lemma dm_path_inv (envs : Nat → DMEnv) (s0 : Settings) :
    ∀ n, ((dmRun envs (s0, DMState.Init) n).2 = DMState.WaitForPort ∨
          (dmRun envs (s0, DMState.Init) n).2 = DMState.Service) →
      ((dmRun envs (s0, DMState.Init) n).1).path.isSome = true := by
  intro n
  induction n with
  | zero =>
    rintro (h | h) <;> simp [dmRun] at h
  | succ n ih =>
    intro h
    rw [dmRun] at h ⊢
    exact dmStep_inv (envs n) (dmRun envs (s0, DMState.Init) n).1
      (dmRun envs (s0, DMState.Init) n).2 ih h

/-- C8. The path invariant: every protocol transition carries the settings
path unchanged, so once the protocol machine starts with path set, every
state it reaches holds a settings with path set; and every device-manager
run that is in WaitForPort (waiting on a port) or Service (starting the
protocol machine) holds a settings whose path is set. -/
theorem settings_path_always_some (settings : Settings)
    (hpath : settings.path.isSome = true) :
    (∀ env st s, ((protoStep env st s).1).path = st.path) ∧
    (∀ penvs ps n, ((protoRun penvs (settings, ps) n).1).path.isSome = true) ∧
    (∀ denvs s0 n,
      ((dmRun denvs (s0, DMState.Init) n).2 = DMState.WaitForPort ∨
       (dmRun denvs (s0, DMState.Init) n).2 = DMState.Service) →
      ((dmRun denvs (s0, DMState.Init) n).1).path.isSome = true) := by
  have hstep : ∀ env st s, ((protoStep env st s).1).path = st.path := by
    intro env st s
    cases s <;> rfl
  refine ⟨hstep, ?_, ?_⟩
  · intro penvs ps n
    induction n with
    | zero => exact hpath
    | succ n ih =>
      rw [protoRun, hstep]
      exact ih
  · intro denvs s0 n
    exact dm_path_inv denvs s0 n

/-- Witness for C8: a settings value with an explicit path; after two steps
of the device manager from Init (wait not cancelled), the machine is in
Service and its path is still set. -/
theorem settings_path_always_some_witness :
    ((protoStep ⟨true, 5, false, false⟩
        ⟨some "/dev/ttyUSB0", 230400, 8, 0, 0, 1, none⟩ ProtoState.Init).1).path =
      some "/dev/ttyUSB0" ∧
    ((dmRun (fun _ => ⟨false, none, 0⟩)
        (⟨some "/dev/ttyUSB0", 230400, 8, 0, 0, 1, none⟩, DMState.Init) 2).1).path.isSome
      = true :=
  ⟨(settings_path_always_some ⟨some "/dev/ttyUSB0", 230400, 8, 0, 0, 1, none⟩
      rfl).1 ⟨true, 5, false, false⟩ ⟨some "/dev/ttyUSB0", 230400, 8, 0, 0, 1, none⟩
      ProtoState.Init,
    (settings_path_always_some ⟨some "/dev/ttyUSB0", 230400, 8, 0, 0, 1, none⟩
      rfl).2.2 (fun _ => ⟨false, none, 0⟩)
      ⟨some "/dev/ttyUSB0", 230400, 8, 0, 0, 1, none⟩ 2 (Or.inr (by rfl))⟩

/-- C10. A cancelled interactive image selection makes send_kernel return
success at once: the port is untouched (no bytes written), the attempt counts
as a success, and KernelSendMode therefore leaves its retry loop on the first
attempt and fires SwitchToTerminalMode with the same port. -/
theorem cancelled_selection_counts_as_success (c : Nat) (port : SimPort) (pid : Nat) :
    send_kernel c port .cancelled = (port, true) ∧
    (send_kernel c port .cancelled).1.written = port.written ∧
    kernel_send_mode_run (fun _ => (send_kernel c port .cancelled).2) pid 1 =
      some (ProtoEvent.SwitchToTerminalMode pid) := by
  refine ⟨rfl, rfl, ?_⟩
  rw [kernel_send_mode_run]
  rfl

end Bootcom
